import Mathlib

/-!
# SheetQuery — a shallow embedding of `src/index.ts`

The repository is a fluent query/mutation layer (`SheetQueryBuilder`) over a
spreadsheet sheet: a header row (row 1) followed by data rows (rows 2..).
This file embeds the builder's state and its operations as pure Lean
functions.  The backing spreadsheet service (Google Apps Script, mocked by
`gasmask` in the repository's tests) is external to the repository; it is
modelled here from the spec's §6 collaborator contract.  Every backing-store
interaction an operation performs is recorded in an explicit effect trace
(`Eff`), so that theorems can speak about which positional reads, writes,
deletes, appends and flushes an operation issues and in which order.

Conventions of the embedding:
* JS cell values become `Value` (string / integer number / boolean /
  undefined); JS truthiness becomes `Value.truthy`.
* A materialized row object `{ __meta: {row, cols}, <heading>: <cell>, ... }`
  becomes `RowObject`: its data fields as an ordered association list (JS
  object insertion order) plus the `__meta` record kept in a separate slot,
  following the spec's data model in which `__meta` is non-data metadata
  carried alongside the row (no heading is the literal string `__meta`).
* Fallible paths (the sheet name not resolving, so that JS would throw on a
  method call on `null`) return `none`.
-/

set_option autoImplicit false

namespace SheetQuery

/-- A spreadsheet cell value (JS value as it occurs in this library):
a string, a number (modelled as an integer), a boolean, or `undefined`. -/
inductive Value where
  | vStr (s : String)
  | vNum (n : Int)
  | vBool (b : Bool)
  | vUndef
  deriving DecidableEq, Repr

/-- JS truthiness of a cell value: `''`, `0`, `false` and `undefined` are
falsy, everything else here is truthy. -/
def Value.truthy : Value → Bool
  | .vStr s => !(s == "")
  | .vNum n => !(n == 0)
  | .vBool b => b
  | .vUndef => false

/-- Coercion of a cell value to a JS property key (string), applied when a
header cell is used as an object key. -/
def Value.toKey : Value → String
  | .vStr s => s
  | .vNum n => toString n
  | .vBool b => if b then "true" else "false"
  | .vUndef => "undefined"

/-- Modelled from the spec: the backing table handle (spec §6), which is not
part of this repository.  A sheet is the rectangular grid of stored cells;
row 1 is the header row, data begins at row 2. -/
structure Sheet where
  grid : List (List Value)
  deriving DecidableEq, Repr

/-- `TableHandle.lastRow()`: the number of stored rows (header included). -/
def Sheet.getLastRow (s : Sheet) : Nat :=
  s.grid.length

/-- `TableHandle.lastColumn()`: the width of the widest stored row. -/
def Sheet.getLastColumn (s : Sheet) : Nat :=
  s.grid.foldr (fun r m => max r.length m) 0

/-- Modelled from the spec: `TableHandle.readBlock(startRow, startCol,
numRows, numCols)` (spec §6).  Returns the requested rectangle clipped to the
stored grid — the slice semantics of the backing store the repository is
written against, and the one under which the spec's recorded behaviours hold
(a table with only a header row reads back as no data rows, §4.2/§8). -/
def Sheet.getSheetValues (s : Sheet) (startRow startCol numRows numCols : Nat) :
    List (List Value) :=
  ((s.grid.drop (startRow - 1)).take numRows).map
    fun r => (r.drop (startCol - 1)).take numCols

/-- The `__meta` metadata of a materialized row: its 1-based absolute row
position in the sheet, and its column count. -/
structure Meta where
  row : Nat
  cols : Nat
  deriving DecidableEq, Repr

/-- A materialized row object: data fields in JS-object insertion order,
plus the `__meta` metadata. -/
structure RowObject where
  data : List (String × Value)
  meta : Meta
  deriving DecidableEq, Repr

/-- The value an update function may return: a row-shaped object whose
`__meta` marker may be present or absent.  `updateFn` returning `undefined`
is `none` at the `Option URow` level of `UpdateFn`. -/
structure URow where
  data : List (String × Value)
  meta : Option Meta

/-- `UpdateFn = (row) => RowObject | undefined`. -/
def UpdateFn : Type := RowObject → Option URow

/-- `WhereFn = (row) => boolean`. -/
def WhereFn : Type := RowObject → Bool

/-- One observable interaction with the backing store. -/
inductive Eff where
  | readBlock (startRow startCol numRows numCols : Nat)
  | writeBlock (startRow startCol numRows numCols : Nat) (values : List (List Value))
  | appendRow (values : List Value)
  | deleteBlock (startRow startCol numRows numCols : Nat)
  | flush
  deriving DecidableEq, Repr

/-- Is the effect the row-materialization block read (the one `getValues`
issues at start row 2)?  Header reads start at row 1. -/
def Eff.isRowBlockRead : Eff → Bool
  | .readBlock startRow _ _ _ => startRow == 2
  | _ => false

/-- `SheetQueryBuilder` instance state: the spreadsheet it was constructed
over (a name → sheet association), the `from()` name, the `where()`
predicate, and the three lazily cached fields `_sheet`, `_sheetValues`,
`_sheetHeadings`. -/
structure Builder where
  activeSpreadsheet : List (String × Sheet)
  sheetName : Option String
  whereFn : Option WhereFn
  _sheet : Option Sheet
  _sheetValues : Option (List RowObject)
  _sheetHeadings : List String

/-- `getSheetByName` on the active spreadsheet. -/
def findSheet (name : String) : List (String × Sheet) → Option Sheet
  | [] => none
  | (n, s) :: rest => if n = name then some s else findSheet name rest

/-- `sheetQuery(activeSpreadsheet)`: a fresh builder; `_sheetHeadings`
starts as the empty list, the other caches as null/undefined. -/
def sheetQuery (sp : List (String × Sheet)) : Builder :=
  { activeSpreadsheet := sp, sheetName := none, whereFn := none,
    _sheet := none, _sheetValues := none, _sheetHeadings := [] }

/-- `from(sheetName)` (named `fromSheet` because `from` is a Lean keyword). -/
def Builder.fromSheet (b : Builder) (name : String) : Builder :=
  { b with sheetName := some name }

/-- `where(fn)` (named `whereRow` because `where` is a Lean keyword);
a second call overwrites the stored predicate. -/
def Builder.whereRow (b : Builder) (f : WhereFn) : Builder :=
  { b with whereFn := some f }

/-- `getSheet()`: return the cached `_sheet`, resolving it by name on first
call.  A failed lookup leaves `_sheet` unset (null), as in the source. -/
def Builder.getSheet (b : Builder) : Option Sheet × Builder :=
  match b._sheet with
  | some s => (some s, b)
  | none =>
      let s := b.sheetName.bind fun n => findSheet n b.activeSpreadsheet
      (s, { b with _sheet := s })

/-- `getHeadings()`: if `_sheetHeadings` is absent or empty, read one row of
width `getLastColumn()` starting at row 1, column 1, and cache it; else
return the cache untouched. -/
def Builder.getHeadings (b : Builder) : Option (List String × Builder × List Eff) :=
  if b._sheetHeadings.isEmpty then
    match b.getSheet with
    | (none, _) => none
    | (some s, b1) =>
        let numCols := s.getLastColumn
        let hs := ((s.getSheetValues 1 1 1 numCols).headD []).map Value.toKey
        some (hs, { b1 with _sheetHeadings := hs }, [Eff.readBlock 1 1 1 numCols])
  else
    some (b._sheetHeadings, b, [])

/-- One JS object-field assignment `obj[k] = v` on an association list:
an existing key keeps its position and takes the new value, a new key is
appended. -/
def insertField : List (String × Value) → String → Value → List (String × Value)
  | [], k, v => [(k, v)]
  | (k1, v1) :: rest, k, v =>
      if k1 = k then (k1, v) :: rest else (k1, v1) :: insertField rest k v

/-- The inner loop of `getValues`: `for (c = 0; c < numCols; c++)
obj[headings[c]] = cells[c]` (an out-of-range index reads as `undefined`,
whose key form is the string `"undefined"`). -/
def buildObj (heads : List String) (cells : List Value) (numCols : Nat) :
    List (String × Value) :=
  (List.range numCols).foldl
    (fun acc c => insertField acc (heads.getD c "undefined") (cells.getD c Value.vUndef))
    []

/-- The outer loop of `getValues`: physical block row `r` (counted from
`start`, initially 0) becomes a record with metadata
`{ row := r + 2, cols := numCols }`. -/
def materializeFrom (heads : List String) (numCols : Nat) :
    Nat → List (List Value) → List RowObject
  | _, [] => []
  | r, cells :: rest =>
      { data := buildObj heads cells numCols, meta := { row := r + 2, cols := numCols } }
        :: materializeFrom heads numCols (r + 1) rest

/-- `getValues()`: on a cache miss, read the block at
`(2, 1, getLastRow(), getLastColumn())`, fetch the headings, materialize one
row record per returned block row, and cache the sequence. -/
def Builder.getValues (b : Builder) : Option (List RowObject × Builder × List Eff) :=
  match b._sheetValues with
  | some vs => some (vs, b, [])
  | none =>
      match b.getSheet with
      | (none, _) => none
      | (some s, b1) =>
          let numCols := s.getLastColumn
          let block := s.getSheetValues 2 1 s.getLastRow numCols
          match b1.getHeadings with
          | none => none
          | some (heads, b2, e2) =>
              let vs := materializeFrom heads numCols 0 block
              some (vs, { b2 with _sheetValues := some vs },
                Eff.readBlock 2 1 s.getLastRow numCols :: e2)

/-- `getRows()`: `getValues()` filtered by the stored predicate when set. -/
def Builder.getRows (b : Builder) : Option (List RowObject × Builder × List Eff) :=
  match b.getValues with
  | none => none
  | some (vs, b1, e) =>
      some ((match b.whereFn with | some f => vs.filter f | none => vs), b1, e)

/-- `clearCache()`: null out `_sheetValues`, reset `_sheetHeadings` to the
empty list (the cached `_sheet` is untouched), and flush the backing store. -/
def Builder.clearCache (b : Builder) : Builder × List Eff :=
  ({ b with _sheetValues := none, _sheetHeadings := [] }, [Eff.flush])

/-- `deleteRows()`: for the `k`-th matched row (0-based, counter `i` in the
source), delete the 1-row block at `(row.__meta.row - k, 1)` of width
`row.__meta.cols`; then clear the cache. -/
def Builder.deleteRows (b : Builder) : Option (Builder × List Eff) :=
  match b.getRows with
  | none => none
  | some (rows, b1, e) =>
      let dels := rows.enum.map fun kr =>
        Eff.deleteBlock (kr.2.meta.row - kr.1) 1 1 kr.2.meta.cols
      let cf := b1.clearCache
      some (cf.1, e ++ dels ++ cf.2)

/-- The flat value array `updateRows` writes for one matched row: the
update function's result with `__meta` stripped when the result is present
and carries the `__meta` marker, else the original row with `__meta`
stripped. -/
def updateVals (f : UpdateFn) (row : RowObject) : List Value :=
  match f row with
  | some u =>
      match u.meta with
      | some _ => u.data.map Prod.snd
      | none => row.data.map Prod.snd
  | none => row.data.map Prod.snd

/-- `updateRows(updateFn)`: for each matched row write one 1-row block at
`(row.__meta.row, 1)` of width `row.__meta.cols` holding `updateVals`;
then clear the cache. -/
def Builder.updateRows (b : Builder) (f : UpdateFn) : Option (Builder × List Eff) :=
  match b.getRows with
  | none => none
  | some (rows, b1, e) =>
      let writes := rows.map fun row =>
        Eff.writeBlock row.meta.row 1 1 row.meta.cols [updateVals f row]
      let cf := b1.clearCache
      some (cf.1, e ++ writes ++ cf.2)

/-- Property lookup `row[heading]` on a plain input record. -/
def lookupField (row : List (String × Value)) (h : String) : Option Value :=
  match row with
  | [] => none
  | (k, v) :: rest => if k = h then some v else lookupField rest h

/-- One cell of an inserted row: `row[heading] ? row[heading] : ''` —
a truthy looked-up value is kept, a falsy or missing one becomes `''`. -/
def insertCell (row : List (String × Value)) (h : String) : Value :=
  match lookupField row h with
  | some v => if v.truthy then v else Value.vStr ""
  | none => Value.vStr ""

/-- `insertRows(newRows)`: resolve the sheet and headings, then append one
flat row per input record, in input order, each built by mapping
`insertCell` over the headings.  No cache invalidation, no flush. -/
def Builder.insertRows (b : Builder) (newRows : List (List (String × Value))) :
    Option (Builder × List Eff) :=
  match b.getSheet with
  | (none, _) => none
  | (some _, b1) =>
      match b1.getHeadings with
      | none => none
      | some (heads, b2, e) =>
          let appends := newRows.map fun row => Eff.appendRow (heads.map (insertCell row))
          some (b2, e ++ appends)

/-- The heading list `getValues`/`getHeadings` read for a sheet: row 1,
width `getLastColumn()`, each header cell coerced to its key string. -/
def Sheet.headings (s : Sheet) : List String :=
  ((s.getSheetValues 1 1 1 s.getLastColumn).headD []).map Value.toKey

/-- The data block `getValues` reads for a sheet:
`(2, 1, getLastRow(), getLastColumn())`. -/
def Sheet.dataBlock (s : Sheet) : List (List Value) :=
  s.getSheetValues 2 1 s.getLastRow s.getLastColumn

/-- The full materialized row sequence of a sheet, as `getValues` caches
it on a fresh builder. -/
def Sheet.rows (s : Sheet) : List RowObject :=
  materializeFrom s.headings s.getLastColumn 0 s.dataBlock

/-- Application of the optional stored `where()` predicate, as `getRows`
performs it. -/
def filterOpt (w : Option WhereFn) (vs : List RowObject) : List RowObject :=
  match w with
  | some f => vs.filter f
  | none => vs

/-- A fresh builder over spreadsheet `sp` targeting table `name` with
optional predicate `w`: the state right after `sheetQuery(sp).from(name)`
and an optional `where(w)`. -/
def freshBuilder (sp : List (String × Sheet)) (name : String) (w : Option WhereFn) :
    Builder :=
  { activeSpreadsheet := sp, sheetName := some name, whereFn := w,
    _sheet := none, _sheetValues := none, _sheetHeadings := [] }

/-! Concrete fixtures used by witnesses and counterexamples. -/

/-- A 2-column table: header `[A, B]`, one data row `[1, 2]`. -/
def exGrid : List (List Value) :=
  [[Value.vStr "A", Value.vStr "B"], [Value.vNum 1, Value.vNum 2]]

/-- The sheet holding `exGrid`. -/
def exSheet : Sheet := { grid := exGrid }

/-- A fresh builder over the one-sheet spreadsheet `[("s", exSheet)]`,
targeting `"s"`, no filter. -/
def exB : Builder := freshBuilder [("s", exSheet)] "s" none

/-- The row record `{A: 1, B: 2, __meta: {row: 2, cols: 2}}`. -/
def exRow : RowObject :=
  { data := [("A", Value.vNum 1), ("B", Value.vNum 2)], meta := { row := 2, cols := 2 } }

/-- A 1-column table with header `[A]` and data rows at absolute
positions 2, 3, 4, 5. -/
def exSheet5 : Sheet :=
  { grid := [[Value.vStr "A"], [Value.vNum 10], [Value.vNum 20], [Value.vNum 30], [Value.vNum 40]] }

/-- The filter selecting the rows at original absolute positions 2 and 4. -/
def w24 : WhereFn := fun r => r.meta.row == 2 || r.meta.row == 4

/-- A fresh builder over `exSheet5` with the positions-2-and-4 filter. -/
def exB5 : Builder := freshBuilder [("s", exSheet5)] "s" (some w24)

/-- The builder `exB` right after a completed `getValues()` call: all three
lazy fields populated. -/
def exBLoaded : Builder :=
  { activeSpreadsheet := [("s", exSheet)], sheetName := some "s", whereFn := none,
    _sheet := some exSheet, _sheetValues := some [exRow], _sheetHeadings := ["A", "B"] }

/-- The builder state `deleteRows()` leaves behind when run on `exB`. -/
def exBAfterDelete : Builder :=
  ((exB.deleteRows).getD (exB, [])).1

/-- `exB` right after `getSheet()` resolved the table handle. -/
def exBS : Builder :=
  { exB with _sheet := some exSheet }

/-- `exBS` right after `getHeadings()` cached the header row. -/
def exBSH : Builder :=
  { exBS with _sheetHeadings := ["A", "B"] }

/-- `exBLoaded` right after `clearCache()`: row and heading caches gone,
the table handle still present. -/
def exBCleared : Builder :=
  { exBLoaded with _sheetValues := none, _sheetHeadings := [] }

/-! ## Helper lemmas -/

theorem insertField_fresh (acc : List (String × Value)) (k : String) (v : Value)
    (hk : k ∉ acc.map Prod.fst) : insertField acc k v = acc ++ [(k, v)] := by
  induction acc with
  | nil => rfl
  | cons p rest ih =>
      obtain ⟨k1, v1⟩ := p
      simp only [List.map_cons, List.mem_cons] at hk
      push_neg at hk
      have hne : ¬k1 = k := fun h => hk.1 h.symm
      simp only [insertField, if_neg hne]
      rw [ih hk.2]
      simp

theorem foldl_insertField_fresh (ps : List (String × Value)) :
    ∀ acc : List (String × Value), (ps.map Prod.fst).Nodup →
      (∀ k ∈ ps.map Prod.fst, k ∉ acc.map Prod.fst) →
      ps.foldl (fun a p => insertField a p.1 p.2) acc = acc ++ ps := by
  induction ps with
  | nil => intro acc _ _; simp
  | cons p rest ih =>
      intro acc hnd hfresh
      simp only [List.map_cons, List.nodup_cons] at hnd
      have h1 : p.1 ∉ acc.map Prod.fst := hfresh p.1 (by simp)
      simp only [List.foldl_cons]
      rw [insertField_fresh acc p.1 p.2 h1]
      rw [ih (acc ++ [p]) hnd.2 ?fresh]
      · simp
      case fresh =>
        intro k hk hmem
        rw [List.map_append, List.mem_append] at hmem
        rcases hmem with ha | hp
        · exact hfresh k (by simp [hk]) ha
        · have hkp : k = p.1 := by simpa using hp
          exact hnd.1 (hkp ▸ hk)

theorem foldl_index_eq_foldl_pairs (heads : List String) (cells : List Value)
    (n : Nat) (acc : List (String × Value)) :
    (List.range n).foldl
        (fun a c => insertField a (heads.getD c "undefined") (cells.getD c Value.vUndef)) acc
      = ((List.range n).map
          (fun c => (heads.getD c "undefined", cells.getD c Value.vUndef))).foldl
          (fun a p => insertField a p.1 p.2) acc := by
  rw [List.foldl_map]

theorem buildObj_eq_zip (heads : List String) (cells : List Value) (n : Nat)
    (hnd : heads.Nodup) (hh : heads.length = n) (hc : cells.length = n) :
    buildObj heads cells n = heads.zip cells := by
  have hpairs : (List.range n).map
      (fun c => (heads.getD c "undefined", cells.getD c Value.vUndef)) = heads.zip cells := by
    apply List.ext_getElem
    · simp [List.length_zip, hh, hc]
    · intro i h1 h2
      have hi : i < n := by simpa using h1
      simp only [List.getElem_map, List.getElem_range, List.getElem_zip]
      rw [List.getD_eq_getElem heads _ (by omega), List.getD_eq_getElem cells _ (by omega)]
  unfold buildObj
  rw [foldl_index_eq_foldl_pairs, hpairs,
    foldl_insertField_fresh (heads.zip cells) [] ?nodup (by simp)]
  · simp
  case nodup =>
    rw [List.map_fst_zip heads cells (by omega)]
    exact hnd

theorem materializeFrom_length (heads : List String) (n : Nat) :
    ∀ (r : Nat) (block : List (List Value)),
      (materializeFrom heads n r block).length = block.length := by
  intro r block
  induction block generalizing r with
  | nil => rfl
  | cons c rest ih => simp [materializeFrom, ih]

theorem materializeFrom_getElem? (heads : List String) (n : Nat) :
    ∀ (block : List (List Value)) (r i : Nat) (cells : List Value),
      block[i]? = some cells →
      (materializeFrom heads n r block)[i]? =
        some { data := buildObj heads cells n, meta := { row := r + i + 2, cols := n } } := by
  intro block
  induction block with
  | nil => intro r i cells h; simp at h
  | cons c rest ih =>
      intro r i cells h
      cases i with
      | zero =>
          simp only [List.getElem?_cons_zero, Option.some.injEq] at h
          subst h
          simp [materializeFrom]
      | succ j =>
          simp only [List.getElem?_cons_succ] at h
          have h2 := ih (r + 1) j cells h
          have harith : r + 1 + j + 2 = r + (j + 1) + 2 := by omega
          rw [harith] at h2
          simpa [materializeFrom, List.getElem?_cons_succ] using h2

theorem materializeFrom_row_ge (heads : List String) (n : Nat) :
    ∀ (block : List (List Value)) (r : Nat) (x : RowObject),
      x ∈ materializeFrom heads n r block → r + 2 ≤ x.meta.row := by
  intro block
  induction block with
  | nil => intro r x h; simp [materializeFrom] at h
  | cons c rest ih =>
      intro r x h
      simp only [materializeFrom, List.mem_cons] at h
      rcases h with h | h
      · subst h; simp
      · have := ih (r + 1) x h
        omega

theorem materializeFrom_pairwise (heads : List String) (n : Nat) :
    ∀ (block : List (List Value)) (r : Nat),
      (materializeFrom heads n r block).Pairwise (fun a b => a.meta.row < b.meta.row) := by
  intro block
  induction block with
  | nil => intro r; simp [materializeFrom]
  | cons c rest ih =>
      intro r
      simp only [materializeFrom]
      refine List.Pairwise.cons ?_ (ih (r + 1))
      intro b hb
      have := materializeFrom_row_ge heads n rest (r + 1) b hb
      simp only
      omega

theorem pairwise_row_index_ge :
    ∀ (l : List RowObject) (m : Nat),
      (∀ x ∈ l, m ≤ x.meta.row) →
      l.Pairwise (fun a b => a.meta.row < b.meta.row) →
      ∀ (i : Nat) (x : RowObject), l[i]? = some x → m + i ≤ x.meta.row := by
  intro l
  induction l with
  | nil => intro m _ _ i x h; simp at h
  | cons a rest ih =>
      intro m hall hpw i x h
      rcases List.pairwise_cons.mp hpw with ⟨ha, hrest⟩
      cases i with
      | zero =>
          simp only [List.getElem?_cons_zero, Option.some.injEq] at h
          have h0 := hall a (List.mem_cons_self a rest)
          rw [← h]
          omega
      | succ j =>
          simp only [List.getElem?_cons_succ] at h
          have hall2 : ∀ y ∈ rest, m + 1 ≤ y.meta.row := by
            intro y hy
            have h1 := hall a (by simp)
            have h2 := ha y hy
            omega
          have := ih (m + 1) hall2 hrest j x h
          omega

theorem filterOpt_nil (w : Option WhereFn) : filterOpt w [] = [] := by
  cases w <;> rfl

theorem filterOpt_pairwise (w : Option WhereFn) (vs : List RowObject)
    (h : vs.Pairwise (fun a b => a.meta.row < b.meta.row)) :
    (filterOpt w vs).Pairwise (fun a b => a.meta.row < b.meta.row) := by
  cases w with
  | none => exact h
  | some f => exact h.filter f

theorem filterOpt_subset (w : Option WhereFn) (vs : List RowObject) (x : RowObject)
    (h : x ∈ filterOpt w vs) : x ∈ vs := by
  cases w with
  | none => exact h
  | some f => exact (List.mem_filter.mp h).1

theorem getSheet_preserves (b : Builder) :
    (b.getSheet).2._sheetValues = b._sheetValues
      ∧ (b.getSheet).2._sheetHeadings = b._sheetHeadings := by
  cases hb : b._sheet <;> simp [Builder.getSheet, hb]

theorem getHeadings_cases (b : Builder) (hs : List String) (b2 : Builder) (e : List Eff)
    (h : b.getHeadings = some (hs, b2, e)) :
    b2._sheetValues = b._sheetValues
      ∧ (e = [] ∨ ∃ numCols, e = [Eff.readBlock 1 1 1 numCols]) := by
  unfold Builder.getHeadings at h
  by_cases hemp : b._sheetHeadings.isEmpty
  · rw [if_pos hemp] at h
    rcases hg : b.getSheet with ⟨os, b1⟩
    rw [hg] at h
    cases os with
    | none => simp at h
    | some s =>
        simp only [Option.some.injEq, Prod.mk.injEq] at h
        obtain ⟨-, hb2, he⟩ := h
        constructor
        · rw [← hb2]
          have hp := getSheet_preserves b
          rw [hg] at hp
          exact hp.1
        · exact Or.inr ⟨s.getLastColumn, he.symm⟩
  · rw [if_neg hemp] at h
    simp only [Option.some.injEq, Prod.mk.injEq] at h
    obtain ⟨-, hb2, he⟩ := h
    exact ⟨by rw [← hb2], Or.inl he.symm⟩

theorem getValues_fresh (sp : List (String × Sheet)) (name : String) (w : Option WhereFn)
    (s : Sheet) (hfind : findSheet name sp = some s) :
    (freshBuilder sp name w).getValues =
      some (s.rows,
        { freshBuilder sp name w with
            _sheet := some s, _sheetValues := some s.rows, _sheetHeadings := s.headings },
        [Eff.readBlock 2 1 s.getLastRow s.getLastColumn,
         Eff.readBlock 1 1 1 s.getLastColumn]) := by
  simp [Builder.getValues, Builder.getSheet, Builder.getHeadings, freshBuilder,
    Option.bind, hfind, Sheet.rows, Sheet.headings, Sheet.dataBlock]

theorem getRows_fresh (sp : List (String × Sheet)) (name : String) (w : Option WhereFn)
    (s : Sheet) (hfind : findSheet name sp = some s) :
    (freshBuilder sp name w).getRows =
      some (filterOpt w s.rows,
        { freshBuilder sp name w with
            _sheet := some s, _sheetValues := some s.rows, _sheetHeadings := s.headings },
        [Eff.readBlock 2 1 s.getLastRow s.getLastColumn,
         Eff.readBlock 1 1 1 s.getLastColumn]) := by
  unfold Builder.getRows
  rw [getValues_fresh sp name w s hfind]
  cases w <;> simp [filterOpt, freshBuilder]

/-! ## Claim theorems -/

/-- C1: for every table and filter selection, `deleteRows` visits the matched
rows in the row cache's ascending original-position order (the matched rows
are pairwise strictly increasing in `__meta.row`, and the `k`-th matched row
sits at absolute position at least `k + 2`), issues for the `k`-th row
exactly one positional delete of the 1-row block at
`(row.__meta.row − k, 1)` of width `row.__meta.cols`, and afterwards
invalidates the cache (row and heading caches cleared, one flush). -/
theorem deleteRows_reindexes_ascending (sp : List (String × Sheet)) (name : String)
    (w : Option WhereFn) (s : Sheet) (hfind : findSheet name sp = some s) :
    (freshBuilder sp name w).deleteRows =
      some ({ freshBuilder sp name w with _sheet := some s },
        [Eff.readBlock 2 1 s.getLastRow s.getLastColumn,
         Eff.readBlock 1 1 1 s.getLastColumn]
        ++ (filterOpt w s.rows).enum.map
            (fun kr => Eff.deleteBlock (kr.2.meta.row - kr.1) 1 1 kr.2.meta.cols)
        ++ [Eff.flush])
    ∧ (filterOpt w s.rows).Pairwise (fun a b => a.meta.row < b.meta.row)
    ∧ (∀ (k : Nat) (x : RowObject), (filterOpt w s.rows)[k]? = some x →
        k + 2 ≤ x.meta.row) := by
  have hpw : (filterOpt w s.rows).Pairwise (fun a b => a.meta.row < b.meta.row) :=
    filterOpt_pairwise w s.rows (materializeFrom_pairwise s.headings s.getLastColumn s.dataBlock 0)
  refine ⟨?_, hpw, ?_⟩
  · unfold Builder.deleteRows
    rw [getRows_fresh sp name w s hfind]
    simp [Builder.clearCache, freshBuilder]
  · intro k x hk
    have hmem : ∀ y ∈ filterOpt w s.rows, 2 ≤ y.meta.row := by
      intro y hy
      have := materializeFrom_row_ge s.headings s.getLastColumn s.dataBlock 0 y
        (filterOpt_subset w s.rows y hy)
      omega
    have := pairwise_row_index_ge (filterOpt w s.rows) 2 hmem hpw k x hk
    omega

/-- C1 witness: data rows at absolute positions 2, 3, 4, 5 with a filter
matching positions 2 and 4 — the physical deletes land at positions 2 and
then 3, followed by the cache-clearing flush. -/
theorem deleteRows_reindexes_ascending_witness :
    exB5.deleteRows =
      some ({ exB5 with _sheet := some exSheet5 },
        [Eff.readBlock 2 1 5 1, Eff.readBlock 1 1 1 1,
         Eff.deleteBlock 2 1 1 1, Eff.deleteBlock 3 1 1 1, Eff.flush]) := by
  have h := deleteRows_reindexes_ascending [("s", exSheet5)] "s" (some w24) exSheet5 rfl
  exact h.1

/-- C3: a table holding only a header row: `getValues()` returns the empty
sequence (no error), and `deleteRows()` / `updateRows(fn)` issue no
positional delete or write — their whole trace is the two block reads and
the flush — while still invalidating the cache (row cache nulled, headings
reset to empty, flush issued). -/
theorem header_only_table_safe (hr : List Value) (name : String) (w : Option WhereFn)
    (rest : List (String × Sheet)) (f : UpdateFn) :
    (freshBuilder ((name, Sheet.mk [hr]) :: rest) name w).getValues =
      some ([],
        { freshBuilder ((name, Sheet.mk [hr]) :: rest) name w with
            _sheet := some (Sheet.mk [hr]), _sheetValues := some [],
            _sheetHeadings := (Sheet.mk [hr]).headings },
        [Eff.readBlock 2 1 1 (Sheet.mk [hr]).getLastColumn,
         Eff.readBlock 1 1 1 (Sheet.mk [hr]).getLastColumn])
    ∧ (freshBuilder ((name, Sheet.mk [hr]) :: rest) name w).deleteRows =
      some ({ freshBuilder ((name, Sheet.mk [hr]) :: rest) name w with
              _sheet := some (Sheet.mk [hr]) },
        [Eff.readBlock 2 1 1 (Sheet.mk [hr]).getLastColumn,
         Eff.readBlock 1 1 1 (Sheet.mk [hr]).getLastColumn, Eff.flush])
    ∧ (freshBuilder ((name, Sheet.mk [hr]) :: rest) name w).updateRows f =
      some ({ freshBuilder ((name, Sheet.mk [hr]) :: rest) name w with
              _sheet := some (Sheet.mk [hr]) },
        [Eff.readBlock 2 1 1 (Sheet.mk [hr]).getLastColumn,
         Eff.readBlock 1 1 1 (Sheet.mk [hr]).getLastColumn, Eff.flush]) := by
  have hfind : findSheet name ((name, Sheet.mk [hr]) :: rest) = some (Sheet.mk [hr]) := by
    simp [findSheet]
  have hrows : (Sheet.mk [hr]).rows = [] := rfl
  refine ⟨?_, ?_, ?_⟩
  · have h := getValues_fresh ((name, Sheet.mk [hr]) :: rest) name w (Sheet.mk [hr]) hfind
    rw [hrows] at h
    exact h
  · unfold Builder.deleteRows
    rw [getRows_fresh ((name, Sheet.mk [hr]) :: rest) name w (Sheet.mk [hr]) hfind, hrows,
      filterOpt_nil]
    simp [Builder.clearCache, freshBuilder, Sheet.getLastRow]
  · unfold Builder.updateRows
    rw [getRows_fresh ((name, Sheet.mk [hr]) :: rest) name w (Sheet.mk [hr]) hfind, hrows,
      filterOpt_nil]
    simp [Builder.clearCache, freshBuilder, Sheet.getLastRow]

/-- C9: `getValues` issues its block read at `(2, 1)` requesting exactly
`getLastRow()` rows and `getLastColumn()` columns — for a table with a
header row and `dataRows.length` data rows, that is `dataRows.length + 1`
rows: the table's total row count, one more than the number of data rows
below the header. -/
theorem getValues_requests_lastRow_rows (hr : List Value) (dataRows : List (List Value))
    (name : String) (w : Option WhereFn) (rest : List (String × Sheet)) :
    (freshBuilder ((name, Sheet.mk (hr :: dataRows)) :: rest) name w).getValues =
      some ((Sheet.mk (hr :: dataRows)).rows,
        { freshBuilder ((name, Sheet.mk (hr :: dataRows)) :: rest) name w with
            _sheet := some (Sheet.mk (hr :: dataRows)),
            _sheetValues := some (Sheet.mk (hr :: dataRows)).rows,
            _sheetHeadings := (Sheet.mk (hr :: dataRows)).headings },
        [Eff.readBlock 2 1 (Sheet.mk (hr :: dataRows)).getLastRow
            (Sheet.mk (hr :: dataRows)).getLastColumn,
         Eff.readBlock 1 1 1 (Sheet.mk (hr :: dataRows)).getLastColumn])
    ∧ (Sheet.mk (hr :: dataRows)).getLastRow = dataRows.length + 1 := by
  constructor
  · exact getValues_fresh _ name w _ (by simp [findSheet])
  · simp [Sheet.getLastRow]

/-- C2: `getValues` reads one block that spans the grid from row 2 to the
last stored row at width `getLastColumn()`, and materializes the block's
physical row `r` (0-based) into a record whose data fields zip
`headings[c]` with the cell at `[r][c]` and whose metadata is
`{ row := r + 2, cols := numCols }`; the full sequence is cached. -/
theorem getValues_materializes_zip (sp : List (String × Sheet)) (name : String)
    (w : Option WhereFn) (s : Sheet) (hfind : findSheet name sp = some s)
    (hnd : s.headings.Nodup) (hlen : s.headings.length = s.getLastColumn)
    (hrect : ∀ row ∈ s.dataBlock, row.length = s.getLastColumn) :
    (freshBuilder sp name w).getValues =
      some (s.rows,
        { freshBuilder sp name w with
            _sheet := some s, _sheetValues := some s.rows, _sheetHeadings := s.headings },
        [Eff.readBlock 2 1 s.getLastRow s.getLastColumn,
         Eff.readBlock 1 1 1 s.getLastColumn])
    ∧ s.dataBlock = (s.grid.drop 1).map (fun row => row.take s.getLastColumn)
    ∧ (∀ (r : Nat) (cells : List Value), s.dataBlock[r]? = some cells →
        s.rows[r]? = some { data := s.headings.zip cells,
                            meta := { row := r + 2, cols := s.getLastColumn } }) := by
  refine ⟨getValues_fresh sp name w s hfind, ?_, ?_⟩
  · unfold Sheet.dataBlock Sheet.getSheetValues Sheet.getLastRow
    rw [show (2 : Nat) - 1 = 1 from rfl,
      List.take_of_length_le (by rw [List.length_drop]; omega)]
    simp
  · intro r cells hrc
    have hcells : cells ∈ s.dataBlock := by
      obtain ⟨hlt, hget⟩ := List.getElem?_eq_some.mp hrc
      exact hget ▸ List.getElem_mem hlt
    have hclen : cells.length = s.getLastColumn := hrect cells hcells
    have h1 := materializeFrom_getElem? s.headings s.getLastColumn s.dataBlock 0 r cells hrc
    rw [buildObj_eq_zip s.headings cells s.getLastColumn hnd hlen hclen] at h1
    rw [show 0 + r + 2 = r + 2 by omega] at h1
    exact h1

/-- C2 witness: a table with headings `[A, B]` and the single data row
`[1, 2]` — `getRows()` yields exactly the one record
`{A: 1, B: 2, __meta: {row: 2, cols: 2}}`. -/
theorem getValues_materializes_zip_witness :
    exB.getRows = some ([exRow], exBLoaded,
      [Eff.readBlock 2 1 2 2, Eff.readBlock 1 1 1 2]) := by
  have h := getValues_materializes_zip [("s", exSheet)] "s" none exSheet rfl
    (by decide) (by decide) (by decide)
  exact h.1

/-- C4 counterexample: with the row and heading caches populated,
`insertRows` returns with both caches still in place and a trace holding
only the append — no cache invalidation and no flush, contradicting the
claim that every mutating operation invalidates and flushes. -/
theorem insertRows_no_invalidate_cex :
    exBLoaded.insertRows [[("A", Value.vNum 7)]] =
      some (exBLoaded, [Eff.appendRow [Value.vNum 7, Value.vStr ""]])
    ∧ exBLoaded._sheetValues = some [exRow]
    ∧ exBLoaded._sheetHeadings = ["A", "B"] :=
  ⟨rfl, rfl, rfl⟩

/-- C4 amended: `updateRows` and `deleteRows` invalidate the cached row
sequence and cached headings and end their trace with a flush; `insertRows`
leaves the cached row sequence exactly as it was and never flushes. -/
theorem mutation_cache_invalidation_amended (b b2 b3 b4 : Builder) (f : UpdateFn)
    (nr : List (List (String × Value))) (e2 e3 e4 : List Eff) :
    (b.updateRows f = some (b2, e2) →
      b2._sheetValues = none ∧ b2._sheetHeadings = [] ∧ e2.getLast? = some Eff.flush)
    ∧ (b.deleteRows = some (b3, e3) →
      b3._sheetValues = none ∧ b3._sheetHeadings = [] ∧ e3.getLast? = some Eff.flush)
    ∧ (b.insertRows nr = some (b4, e4) →
      b4._sheetValues = b._sheetValues ∧ Eff.flush ∉ e4) := by
  refine ⟨?_, ?_, ?_⟩
  · intro h
    unfold Builder.updateRows at h
    cases hg : b.getRows with
    | none => rw [hg] at h; exact absurd h (by simp)
    | some p =>
        obtain ⟨rows, b1, e⟩ := p
        rw [hg] at h
        simp only [Option.some.injEq, Prod.mk.injEq] at h
        obtain ⟨hb, he⟩ := h
        refine ⟨by rw [← hb]; rfl, by rw [← hb]; rfl, ?_⟩
        rw [← he]
        show ((e ++ _) ++ [Eff.flush]).getLast? = some Eff.flush
        exact List.getLast?_concat _
  · intro h
    unfold Builder.deleteRows at h
    cases hg : b.getRows with
    | none => rw [hg] at h; exact absurd h (by simp)
    | some p =>
        obtain ⟨rows, b1, e⟩ := p
        rw [hg] at h
        simp only [Option.some.injEq, Prod.mk.injEq] at h
        obtain ⟨hb, he⟩ := h
        refine ⟨by rw [← hb]; rfl, by rw [← hb]; rfl, ?_⟩
        rw [← he]
        show ((e ++ _) ++ [Eff.flush]).getLast? = some Eff.flush
        exact List.getLast?_concat _
  · intro h
    unfold Builder.insertRows at h
    rcases hg : b.getSheet with ⟨os, b1⟩
    rw [hg] at h
    cases os with
    | none => dsimp only at h; exact absurd h (by simp)
    | some s =>
        dsimp only at h
        cases hh : b1.getHeadings with
        | none => rw [hh] at h; exact absurd h (by simp)
        | some q =>
            obtain ⟨hs, bq, eq1⟩ := q
            rw [hh] at h
            dsimp only at h
            simp only [Option.some.injEq, Prod.mk.injEq] at h
            obtain ⟨hb, he⟩ := h
            have hq := getHeadings_cases b1 hs bq eq1 hh
            have hp := getSheet_preserves b
            rw [hg] at hp
            constructor
            · rw [← hb, hq.1, hp.1]
            · rw [← he]
              intro hmem
              rcases List.mem_append.mp hmem with hin | hin
              · rcases hq.2 with he2 | ⟨numCols, he2⟩ <;> rw [he2] at hin <;> simp at hin
              · rcases List.mem_map.mp hin with ⟨row, -, hrow⟩
                exact absurd hrow (by simp)

/-- C4 amended witness: concrete runs of all three operations on a builder
with populated caches. -/
theorem mutation_cache_invalidation_amended_witness :
    (exBCleared._sheetValues = none ∧ exBCleared._sheetHeadings = []
      ∧ ([Eff.writeBlock 2 1 1 2 [[Value.vNum 1, Value.vNum 2]],
          Eff.flush] : List Eff).getLast? = some Eff.flush)
    ∧ (exBCleared._sheetValues = none ∧ exBCleared._sheetHeadings = []
      ∧ ([Eff.deleteBlock 2 1 1 2, Eff.flush] : List Eff).getLast? = some Eff.flush)
    ∧ (exBLoaded._sheetValues = exBLoaded._sheetValues
      ∧ Eff.flush ∉ ([Eff.appendRow [Value.vNum 7, Value.vStr ""]] : List Eff)) := by
  have h := mutation_cache_invalidation_amended exBLoaded exBCleared exBCleared exBLoaded
    (fun _ => none) [[("A", Value.vNum 7)]]
    [Eff.writeBlock 2 1 1 2 [[Value.vNum 1, Value.vNum 2]], Eff.flush]
    [Eff.deleteBlock 2 1 1 2, Eff.flush]
    [Eff.appendRow [Value.vNum 7, Value.vStr ""]]
  exact ⟨h.1 rfl, h.2.1 rfl, h.2.2 rfl⟩

/-- C5 counterexample: after `deleteRows` completes, the cached table
reference is still set, and a subsequent `getSheet` returns that cached
handle without consulting the spreadsheet at all — even a builder whose
spreadsheet has been emptied still yields the handle. -/
theorem sheet_ref_persists_cex :
    exBAfterDelete._sheet = some exSheet
    ∧ ({ exBAfterDelete with activeSpreadsheet := [] }).getSheet
        = (some exSheet, { exBAfterDelete with activeSpreadsheet := [] }) :=
  ⟨rfl, rfl⟩

/-- C5 amended: the cached headings and row sequence are created on first
access and cleared by `updateRows` / `deleteRows` (via `clearCache`), but
the cached table reference survives: after either mutation it is still the
resolved handle, and a subsequent `getSheet` returns it without
re-resolving the table by name (whatever the spreadsheet now holds). -/
theorem cache_lifecycle_amended (name : String) (s : Sheet) (rest : List (String × Sheet))
    (w : Option WhereFn) (f : UpdateFn) (sp2 : List (String × Sheet)) :
    (∃ e, (freshBuilder ((name, s) :: rest) name w).deleteRows
        = some ({ freshBuilder ((name, s) :: rest) name w with _sheet := some s }, e))
    ∧ (∃ e, (freshBuilder ((name, s) :: rest) name w).updateRows f
        = some ({ freshBuilder ((name, s) :: rest) name w with _sheet := some s }, e))
    ∧ ({ freshBuilder ((name, s) :: rest) name w with
          _sheet := some s, activeSpreadsheet := sp2 }).getSheet
        = (some s, { freshBuilder ((name, s) :: rest) name w with
            _sheet := some s, activeSpreadsheet := sp2 })
    ∧ (∀ b : Builder, (b.clearCache).1._sheet = b._sheet
        ∧ (b.clearCache).1._sheetValues = none ∧ (b.clearCache).1._sheetHeadings = []) := by
  have hfind : findSheet name ((name, s) :: rest) = some s := by simp [findSheet]
  refine ⟨⟨[Eff.readBlock 2 1 s.getLastRow s.getLastColumn,
      Eff.readBlock 1 1 1 s.getLastColumn]
      ++ (filterOpt w s.rows).enum.map
          (fun kr => Eff.deleteBlock (kr.2.meta.row - kr.1) 1 1 kr.2.meta.cols)
      ++ [Eff.flush], ?_⟩,
    ⟨[Eff.readBlock 2 1 s.getLastRow s.getLastColumn,
      Eff.readBlock 1 1 1 s.getLastColumn]
      ++ (filterOpt w s.rows).map
          (fun row => Eff.writeBlock row.meta.row 1 1 row.meta.cols [updateVals f row])
      ++ [Eff.flush], ?_⟩, rfl, fun b => ⟨rfl, rfl, rfl⟩⟩
  · unfold Builder.deleteRows
    rw [getRows_fresh ((name, s) :: rest) name w s hfind]
    simp [Builder.clearCache, freshBuilder]
  · unfold Builder.updateRows
    rw [getRows_fresh ((name, s) :: rest) name w s hfind]
    simp [Builder.clearCache, freshBuilder]

/-- C6: `insertRows` appends one flat row per input record, in input order,
each built by walking the headings in order; the cell for heading `h` is
the record's value at `h` when that value is truthy, and the empty string
when the key is missing or the value is falsy (`0`, the empty string,
`false`, `undefined`). -/
theorem insertRows_falsy_empty_policy (b b1 b2 : Builder) (s : Sheet)
    (heads : List String) (e : List Eff) (nr : List (List (String × Value)))
    (hsh : b.getSheet = (some s, b1)) (hh : b1.getHeadings = some (heads, b2, e)) :
    b.insertRows nr
      = some (b2, e ++ nr.map (fun row => Eff.appendRow (heads.map (insertCell row))))
    ∧ (∀ (row : List (String × Value)) (h : String) (v : Value),
        lookupField row h = some v → v.truthy = true → insertCell row h = v)
    ∧ (∀ (row : List (String × Value)) (h : String) (v : Value),
        lookupField row h = some v → v.truthy = false → insertCell row h = Value.vStr "")
    ∧ (∀ (row : List (String × Value)) (h : String),
        lookupField row h = none → insertCell row h = Value.vStr "") := by
  refine ⟨?_, ?_, ?_, ?_⟩
  · unfold Builder.insertRows
    rw [hsh]
    dsimp only
    rw [hh]
  · intro row h v hl ht
    simp [insertCell, hl, ht]
  · intro row h v hl ht
    simp [insertCell, hl, ht]
  · intro row h hl
    simp [insertCell, hl]

/-- C6 witness: inserting `{B: 0, A: "x"}` and `{A: false}` into the
`[A, B]` table appends `["x", ""]` then `["", ""]` — truthy values kept,
falsy `0` / `false` and the missing `B` key all become empty strings, rows
in input order and cells in heading order. -/
theorem insertRows_falsy_empty_policy_witness :
    exB.insertRows [[("B", Value.vNum 0), ("A", Value.vStr "x")], [("A", Value.vBool false)]]
      = some (exBSH,
        [Eff.readBlock 1 1 1 2,
         Eff.appendRow [Value.vStr "x", Value.vStr ""],
         Eff.appendRow [Value.vStr "", Value.vStr ""]]) := by
  have h := insertRows_falsy_empty_policy exB exBS exBSH exSheet ["A", "B"]
    [Eff.readBlock 1 1 1 2]
    [[("B", Value.vNum 0), ("A", Value.vStr "x")], [("A", Value.vBool false)]] rfl rfl
  exact h.1

/-- C7: for each matched row, `updateRows` issues exactly one write of one
flat row to the 1-row block at `(row.__meta.row, 1)` of width
`row.__meta.cols`; when the update function returns `undefined`, or returns
a record without the `__meta` marker, the values written are the original
row's data values (metadata stripped), unchanged. -/
theorem updateRows_writeback (b b1 : Builder) (f : UpdateFn) (rows : List RowObject)
    (e : List Eff) (hr : b.getRows = some (rows, b1, e)) :
    b.updateRows f
      = some ((b1.clearCache).1,
          e ++ rows.map (fun row =>
            Eff.writeBlock row.meta.row 1 1 row.meta.cols [updateVals f row])
          ++ [Eff.flush])
    ∧ (∀ row : RowObject, f row = none → updateVals f row = row.data.map Prod.snd)
    ∧ (∀ (row : RowObject) (u : URow), f row = some u → u.meta = none →
        updateVals f row = row.data.map Prod.snd)
    ∧ (∀ (row : RowObject) (u : URow) (m : Meta), f row = some u → u.meta = some m →
        updateVals f row = u.data.map Prod.snd) := by
  refine ⟨?_, ?_, ?_, ?_⟩
  · unfold Builder.updateRows
    rw [hr]
    rfl
  · intro row hf
    simp [updateVals, hf]
  · intro row u hf hm
    simp [updateVals, hf, hm]
  · intro row u m hf hm
    simp [updateVals, hf, hm]

/-- C7 witness: on the cached single-row table, an update function that
returns `undefined` produces exactly one write, of the original values
`[1, 2]`, to the block at `(2, 1)` of width 2, followed by the flush. -/
theorem updateRows_writeback_witness :
    exBLoaded.updateRows (fun _ => none)
      = some (exBCleared,
          [Eff.writeBlock 2 1 1 2 [[Value.vNum 1, Value.vNum 2]], Eff.flush]) := by
  have h := updateRows_writeback exBLoaded exBLoaded (fun _ => none) [exRow] [] rfl
  exact h.1

/-- C8: when `getValues` runs on a builder with no cached row sequence, its
trace holds exactly one row-materialization block read; a second
`getValues` on the resulting builder returns the identical cached sequence
with an empty trace — no backing-store interaction at all. -/
theorem getValues_cached_single_read (b b1 : Builder) (vs : List RowObject)
    (e : List Eff) (h0 : b._sheetValues = none) (h : b.getValues = some (vs, b1, e)) :
    e.countP Eff.isRowBlockRead = 1 ∧ b1.getValues = some (vs, b1, []) := by
  unfold Builder.getValues at h
  rw [h0] at h
  rcases hg : b.getSheet with ⟨os, bb⟩
  rw [hg] at h
  cases os with
  | none => dsimp only at h; exact absurd h (by simp)
  | some s =>
      dsimp only at h
      cases hh : bb.getHeadings with
      | none => rw [hh] at h; exact absurd h (by simp)
      | some q =>
          obtain ⟨hs, b2, e2⟩ := q
          rw [hh] at h
          dsimp only at h
          simp only [Option.some.injEq, Prod.mk.injEq] at h
          obtain ⟨hvs, hb1, he⟩ := h
          have he2 := (getHeadings_cases bb hs b2 e2 hh).2
          constructor
          · rw [← he, List.countP_cons]
            have : e2.countP Eff.isRowBlockRead = 0 := by
              rcases he2 with h2 | ⟨numCols, h2⟩ <;> rw [h2] <;> rfl
            rw [this]
            rfl
          · rw [← hb1]
            unfold Builder.getValues
            simp [hvs]

/-- C8 witness: the first `getValues` on the fresh single-row builder
performs exactly one row-block read; the second call returns the cached
sequence untouched with an empty trace. -/
theorem getValues_cached_single_read_witness :
    ([Eff.readBlock 2 1 2 2, Eff.readBlock 1 1 1 2] : List Eff).countP Eff.isRowBlockRead = 1
    ∧ exBLoaded.getValues = some ([exRow], exBLoaded, []) := by
  have h := getValues_cached_single_read exB exBLoaded [exRow]
    [Eff.readBlock 2 1 2 2, Eff.readBlock 1 1 1 2] rfl rfl
  exact h

/-- C10: `getHeadings` returns the cached list untouched when it is
nonempty, and performs the header block read whenever the cached list is
empty — in particular right after `clearCache`, which resets the headings
to the empty list; and when the header read itself yields no columns, the
builder is left unchanged, so every subsequent call reads again (the empty
result is never cached). -/
theorem getHeadings_empty_reread (b bh : Builder) (s : Sheet)
    (hcached : bh._sheetHeadings ≠ [])
    (hempty : b._sheetHeadings = [])
    (hsheet : b._sheet = some s) :
    bh.getHeadings = some (bh._sheetHeadings, bh, [])
    ∧ b.getHeadings = some (s.headings, { b with _sheetHeadings := s.headings },
        [Eff.readBlock 1 1 1 s.getLastColumn])
    ∧ (∀ c : Builder, (c.clearCache).1._sheetHeadings = [])
    ∧ (s.headings = [] →
        b.getHeadings = some ([], b, [Eff.readBlock 1 1 1 s.getLastColumn])) := by
  have hread : b.getHeadings = some (s.headings, { b with _sheetHeadings := s.headings },
      [Eff.readBlock 1 1 1 s.getLastColumn]) := by
    unfold Builder.getHeadings
    rw [if_pos (by simp [hempty])]
    unfold Builder.getSheet
    rw [hsheet]
    dsimp only
    rw [hsheet]
    rfl
  refine ⟨?_, hread, fun c => rfl, ?_⟩
  · unfold Builder.getHeadings
    rw [if_neg (by simpa [List.isEmpty_iff] using hcached)]
  · intro hnone
    rw [hread, hnone]
    obtain ⟨sp1, n1, w1, os1, ov1, hs1⟩ := b
    simp only at hempty
    subst hempty
    rfl

/-- C10 witness: on the loaded builder the cached `["A", "B"]` is returned
with no read; on the resolved-but-headingless builder the header block read
at `(1, 1, 1, 2)` is performed and its result cached. -/
theorem getHeadings_empty_reread_witness :
    exBLoaded.getHeadings = some (["A", "B"], exBLoaded, [])
    ∧ exBS.getHeadings = some (["A", "B"], exBSH, [Eff.readBlock 1 1 1 2]) := by
  have h := getHeadings_empty_reread exBS exBLoaded exSheet (by decide) rfl rfl
  exact ⟨h.1, h.2.1⟩

end SheetQuery
